import Mathlib

/-!
# LogDB — verification of the storage-engine specification

Shallow embedding of the LogDB key-value store (Go): the WAL record
writer/parser (`wal` package), the TCP and UDP command handlers
(`server.go`), and the startup orchestration (`Server.Start`).  Byte
strings are modelled as `List Char`; the LSM tree and Disk Store, whose
implementations live outside the files at hand, are modelled from the
specification where indicated.
-/

/-- Byte strings of the Go source are modelled as lists of characters. -/
abbrev Bytes := List Char

/-- Convenience: a Lean string literal as a byte string. -/
def str (s : String) : Bytes := s.data

/-- The whitespace test of Go `unicode.IsSpace` restricted to the ASCII
whitespace characters relevant to the protocol. -/
def isSpaceChar (c : Char) : Bool :=
  c = ' ' || c = '\t' || c = '\n' || c = '\x0b' || c = '\x0c' || c = '\r'

/-- Split on every element satisfying `p`, keeping empty fields. -/
def splitOnPred (p : Char → Bool) : List Char → List (List Char)
  | [] => [[]]
  | x :: xs =>
    if p x then [] :: splitOnPred p xs
    else
      match splitOnPred p xs with
      | [] => [[x]]
      | f :: r => (x :: f) :: r

/-- Go `strings.Split(s, sep)` for a single-character separator: splits on
every occurrence, keeping empty fields (including a trailing one). -/
def splitOnChar (c : Char) : List Char → List (List Char) :=
  splitOnPred (fun x => x = c)

/-- Go `strings.Fields`: tokens separated by runs of whitespace, with no
empty tokens. -/
def goFields (s : Bytes) : List Bytes :=
  (splitOnPred isSpaceChar s).filter (fun f => f ≠ [])

/-! ## WAL (package `wal`)

The `WAL` struct holds an `os.File` and a `bufio.Writer` over it.  We model
the pair as the bytes already flushed to the file (`file`), the bytes
sitting in the userspace buffer (`buf`), and the buffer's capacity
(`cap`); `bufio.Writer.Available()` is `cap - buf.length`. -/

structure WALState where
  file : Bytes
  buf : Bytes
  cap : Nat
deriving Repr, DecidableEq

/-- The bytes `WAL.Write(data...)` emits for one call: every argument
followed by the `"|"` delimiter, then the `"\n"` end byte. -/
def walRecord (data : List Bytes) : Bytes :=
  (data.map (fun d => d ++ ['|'])).flatten ++ ['\n']

/-- `WAL.Write`: if `len(data) > w.writer.Available()` the buffer is first
flushed to the file (note: `len(data)` in Go is the number of byte-slice
arguments, not their total size); then each argument plus a delimiter, and
finally the end byte, are written to the buffer. -/
def wal_Write (data : List Bytes) (w : WALState) : WALState :=
  let w :=
    if data.length > w.cap - w.buf.length then
      { w with file := w.file ++ w.buf, buf := [] }
    else w
  { w with buf := w.buf ++ walRecord data }

/-- `WAL.Persist`: flush the buffer to the file, fsync, and reset the
buffer. -/
def wal_Persist (w : WALState) : WALState :=
  { w with file := w.file ++ w.buf, buf := [] }

/-- `wal.Entry`: one parsed WAL record. -/
structure Entry where
  key : Bytes
  value : Bytes
  delete : Bool
deriving Repr, DecidableEq

/-- The per-line parse shared by `WAL.ReadEntries` and `WAL.InitDB`:
empty lines are skipped; otherwise the line is split on `"|"`, a `+` line
with exactly 4 fields is a put of `args[1] ↦ args[2]`, a `-` line with
exactly 3 fields is a delete of `args[1]`, and everything else is skipped. -/
def parseLine (cmd : Bytes) : Option Entry :=
  if cmd = [] then none
  else
    match splitOnChar '|' cmd with
    | [] => none
    | a0 :: rest =>
      if a0 = str "+" then
        match rest with
        | [k, v, _] => some ⟨k, v, false⟩
        | _ => none
      else if a0 = str "-" then
        match rest with
        | [k, _] => some ⟨k, [], true⟩
        | _ => none
      else none

/-- `WAL.ReadEntries` applied to the file contents it read: split on
newlines and parse each line, dropping the rejects. -/
def readEntriesContent (data : Bytes) : List Entry :=
  (splitOnChar '\n' data).filterMap parseLine

/-- An abstract I/O failure (opening or reading the WAL file). -/
structure IOErr where
  msg : Bytes
deriving Repr, DecidableEq

/-! ## LSM tree

The `log_structured_merge_tree` package is not among the files at hand;
only its call surface (`Put`, `Del`, `Get`) appears in the server and WAL
code.  It is modelled from the spec. -/

/-- Modelled from the spec: a memtable slot holds a value or a tombstone
("a logical marker that a key has been deleted; participates in reads
(causes not-found)"). -/
inductive MemVal where
  | val (v : Bytes)
  | tomb
deriving Repr, DecidableEq

/-- Insert-or-overwrite into an association list (the memtable is an
ordered mapping; only its mapping behaviour matters here). -/
def memInsert (k : Bytes) (x : MemVal) : List (Bytes × MemVal) → List (Bytes × MemVal)
  | [] => [(k, x)]
  | (k', x') :: t => if k' = k then (k, x) :: t else (k', x') :: memInsert k x t

/-- Memtable lookup. -/
def memLookup (k : Bytes) : List (Bytes × MemVal) → Option MemVal
  | [] => none
  | (k', x') :: t => if k' = k then some x' else memLookup k t

/-- Disk Store lookup (the partitioned store is a key → value mapping;
partitioning does not affect lookup results). -/
def diskLookup (k : Bytes) : List (Bytes × Bytes) → Option Bytes
  | [] => none
  | (k', v') :: t => if k' = k then some v' else diskLookup k t

/-- Modelled from the spec: the LSM index — an active memtable over a
Disk Store that serves cold reads.  The Bloom filter is omitted: with no
false negatives a filter miss coincides with a memtable miss, so it does
not change any result of `Get`. -/
structure LSMTree where
  mem : List (Bytes × MemVal)
  disk : List (Bytes × Bytes)
deriving Repr, DecidableEq

/-- Modelled from the spec: `put(key, value)` — insert or overwrite in the
memtable. -/
def LSMTree.Put (t : LSMTree) (k v : Bytes) : LSMTree :=
  { t with mem := memInsert k (.val v) t.mem }

/-- Modelled from the spec: `del(key)` — insert a tombstone for `key`. -/
def LSMTree.Del (t : LSMTree) (k : Bytes) : LSMTree :=
  { t with mem := memInsert k .tomb t.mem }

/-- Modelled from the spec: `get(key)` — memtable hit returns the value, a
tombstone hit returns not-found immediately, a miss falls through to the
Disk Store partition for the key. -/
def LSMTree.Get (t : LSMTree) (k : Bytes) : Option Bytes :=
  match memLookup k t.mem with
  | some (.val v) => some v
  | some .tomb => none
  | none => diskLookup k t.disk

/-- One line of `WAL.InitDB`'s replay loop: empty lines skipped, a
4-field `+` line is `lsmTree.Put(args[1], args[2])`, a 3-field `-` line is
`lsmTree.Del(args[1])`, anything else skipped. -/
def applyLine (t : LSMTree) (cmd : Bytes) : LSMTree :=
  if cmd = [] then t
  else
    match splitOnChar '|' cmd with
    | [] => t
    | a0 :: rest =>
      if a0 = str "+" then
        match rest with
        | [k, v, _] => t.Put k v
        | _ => t
      else if a0 = str "-" then
        match rest with
        | [k, _] => t.Del k
        | _ => t
      else t

/-- `WAL.InitDB`: on an I/O error opening or reading the file the error is
returned; otherwise the file contents are split on newlines and every
line replayed onto the LSM tree, and the call succeeds. -/
def wal_InitDB (readResult : Except IOErr Bytes) (t : LSMTree) : Except IOErr LSMTree :=
  match readResult with
  | .error e => .error e
  | .ok data => .ok ((splitOnChar '\n' data).foldl applyLine t)

/-! ## Server handlers (`server.go`) -/

/-- The engine state a handler sees: the LSM tree and the WAL. -/
structure EngineState where
  lsm : LSMTree
  wal : WALState
deriving Repr, DecidableEq

/-- Whether the underlying file I/O of `wal.Write` / `wal.Persist` fails
during a command, and with which error text. -/
structure Faults where
  writeErr : Option Bytes
  persistErr : Option Bytes
deriving Repr, DecidableEq

/-- No I/O failures. -/
def noFaults : Faults := ⟨none, none⟩

/-- Outcome of one iteration of `handleConnection`'s scan loop: a
newline-terminated response together with the state left behind, or a
runtime panic (out-of-range index), which kills the connection. -/
inductive TCPOutcome where
  | resp (r : Bytes) (s : EngineState)
  | panicked
deriving Repr, DecidableEq

/-- One iteration of `handleConnection`: tokenize with `strings.Fields`,
then dispatch.  `PUT` with 3 tokens writes `+|k|v|` to the WAL (reporting
a WAL error without touching the tree), then `ltree.Put` and `OK`.
`GET` first persists the WAL (reporting a persist error without reading),
then unconditionally indexes `cmd[1]` — a one-token `GET` panics — and
looks the key up.  `DEL` with 2 tokens mirrors `PUT` with `-|k|`.
Everything else answers `Invalid command`. -/
def tcpStep (fl : Faults) (line : Bytes) (s : EngineState) : TCPOutcome :=
  match goFields line with
  | [] => .resp (str "Invalid command") s
  | c0 :: args =>
    if c0 = str "PUT" then
      match args with
      | [k, v] =>
        match fl.writeErr with
        | some e => .resp (str "Error writing to WAL: " ++ e) s
        | none =>
          let s' : EngineState := { lsm := s.lsm, wal := wal_Write [str "+", k, v] s.wal }
          .resp (str "OK") { s' with lsm := s'.lsm.Put k v }
      | _ => .resp (str "Invalid command") s
    else if c0 = str "GET" then
      match fl.persistErr with
      | some e => .resp (str "Error persisting WAL: " ++ e) s
      | none =>
        let s' : EngineState := { lsm := s.lsm, wal := wal_Persist s.wal }
        match args with
        | [] => .panicked
        | k :: _ =>
          match s'.lsm.Get k with
          | none => .resp (str "Data not found") s'
          | some v => .resp v s'
    else if c0 = str "DEL" then
      match args with
      | [k] =>
        match fl.writeErr with
        | some e => .resp (str "Error writing to WAL: " ++ e) s
        | none =>
          let s' : EngineState := { lsm := s.lsm, wal := wal_Write [str "-", k] s.wal }
          .resp (str "OK") { s' with lsm := s'.lsm.Del k }
      | _ => .resp (str "Invalid command") s
    else .resp (str "Invalid command") s

/-- A whole TCP session: the scan loop over the lines received, collecting
the responses; a panic tears the connection down. -/
def tcpRun (fl : Faults) : List Bytes → EngineState → List Bytes
  | [], _ => []
  | l :: ls, s =>
    match tcpStep fl l s with
    | .resp r s' => r :: tcpRun fl ls s'
    | .panicked => []

/-- Go `strings.Trim(s, "\n")`: strip leading and trailing newlines. -/
def trimNewline (b : Bytes) : Bytes :=
  ((b.dropWhile (fun c => c = '\n')).reverse.dropWhile (fun c => c = '\n')).reverse

/-- `handleUDPPacket`: tokenize the datagram and dispatch.  Unlike TCP,
`GET` checks for exactly 2 tokens before persisting, and its persist
error text carries no detail; `PUT`/`DEL` match the TCP handler. -/
def udpStep (fl : Faults) (packet : Bytes) (s : EngineState) : Bytes × EngineState :=
  match goFields packet with
  | [] => (str "Invalid command", s)
  | c0 :: args =>
    if c0 = str "GET" then
      match args with
      | [k] =>
        match fl.persistErr with
        | some _ => (str "Error persisting WAL", s)
        | none =>
          let s' : EngineState := { lsm := s.lsm, wal := wal_Persist s.wal }
          match s'.lsm.Get (trimNewline k) with
          | none => (str "Data not found", s')
          | some v => (v, s')
      | _ => (str "Invalid command", s)
    else if c0 = str "PUT" then
      match args with
      | [k, v] =>
        match fl.writeErr with
        | some e => (str "Error writing to WAL: " ++ e, s)
        | none =>
          let s' : EngineState := { lsm := s.lsm, wal := wal_Write [str "+", k, v] s.wal }
          (str "OK", { s' with lsm := s'.lsm.Put k v })
      | _ => (str "Invalid command", s)
    else if c0 = str "DEL" then
      match args with
      | [k] =>
        match fl.writeErr with
        | some e => (str "Error writing to WAL: " ++ e, s)
        | none =>
          let s' : EngineState := { lsm := s.lsm, wal := wal_Write [str "-", k] s.wal }
          (str "OK", { s' with lsm := s'.lsm.Del k })
      | _ => (str "Invalid command", s)
    else (str "Invalid command", s)

/-! ## Startup orchestration (`Server.Start`) -/

/-- The externally visible steps `Server.Start` performs. -/
inductive StartEvent where
  | listenTCP
  | listenUDP
  | loadFromDisk
  | startPersistCycle
  | acceptLoopTCP
  | acceptLoopUDP
deriving Repr, DecidableEq

/-- The order in which `Server.Start` completes its steps: `net.Listen`
and `net.ListenPacket` first, then the load-from-disk goroutine runs and
the main goroutine blocks on `dataLoadSignal` until it completes, then
the persisting cycle starts, and only then are the TCP accept loop and
the UDP read loop spawned.  (The channel receive orders the load strictly
before every later step, so the sequence is a faithful linearisation.) -/
def serverStartEvents : List StartEvent :=
  [.listenTCP, .listenUDP, .loadFromDisk, .startPersistCycle,
   .acceptLoopTCP, .acceptLoopUDP]

/-- Position of a step in the startup sequence. -/
def startIndex (e : StartEvent) : Nat := serverStartEvents.indexOf e

/-- Modelled from the spec: `DBEngine.LoadFromDisk` delegates to
`DiskStore.LoadFromDisk(lsmTree, wal)`, which streams every key/value on
disk into the LSM index and then replays the outstanding WAL entries on
top (startup steps 2 and 3).  `disk` is the on-disk key/value contents,
`walData` the WAL file contents. -/
def engineStartup (disk : List (Bytes × Bytes)) (walData : Bytes) : LSMTree :=
  let t0 : LSMTree := { mem := [], disk := disk }
  let t1 := disk.foldl (fun t kv => t.Put kv.1 kv.2) t0
  (splitOnChar '\n' walData).foldl applyLine t1

/-- Application of one parsed WAL entry to the LSM tree (what `InitDB`
does with an accepted line). -/
def applyEntry (t : LSMTree) (en : Entry) : LSMTree :=
  if en.delete then t.Del en.key else t.Put en.key en.value

/-- The last WAL entry whose key is `k`, if any. -/
def lastEntryFor (k : Bytes) : List Entry → Option Entry
  | [] => none
  | en :: es =>
    match lastEntryFor k es with
    | some e => some e
    | none => if en.key = k then some en else none

/-- The value of the last disk-store pair whose key is `k`, if any. -/
def lastValueFor (k : Bytes) : List (Bytes × Bytes) → Option Bytes
  | [] => none
  | kv :: t =>
    match lastValueFor k t with
    | some v => some v
    | none => if kv.1 = k then some kv.2 else none

/-! ## Mutation sequences (for the WAL round-trip) -/

/-- An abstract mutation, as issued by the handlers. -/
inductive GoOp where
  | put (k v : Bytes)
  | del (k : Bytes)
deriving Repr, DecidableEq

/-- The argument list the handlers pass to `wal.Write` for a mutation. -/
def opArgs : GoOp → List Bytes
  | .put k v => [str "+", k, v]
  | .del k => [str "-", k]

/-- The `wal.Entry` a mutation's WAL record parses back to. -/
def opEntry : GoOp → Entry
  | .put k v => ⟨k, v, false⟩
  | .del k => ⟨k, [], true⟩

/-- A key or value acceptable per the spec: non-empty, no pipe, no
newline. -/
def okBytes (b : Bytes) : Prop := b ≠ [] ∧ '|' ∉ b ∧ '\n' ∉ b

instance (b : Bytes) : Decidable (okBytes b) :=
  decidable_of_iff (b ≠ [] ∧ '|' ∉ b ∧ '\n' ∉ b) Iff.rfl

/-- All keys and values of a mutation are acceptable. -/
def okOp : GoOp → Prop
  | .put k v => okBytes k ∧ okBytes v
  | .del k => okBytes k

instance (op : GoOp) : Decidable (okOp op) :=
  match op with
  | .put k v => decidable_of_iff (okBytes k ∧ okBytes v) Iff.rfl
  | .del k => decidable_of_iff (okBytes k) Iff.rfl

/-- Appending a sequence of mutations with `WAL.Write`. -/
def writeOps (ops : List GoOp) (w : WALState) : WALState :=
  ops.foldl (fun w op => wal_Write (opArgs op) w) w

/-- A protocol token: non-empty, and free of whitespace (hence of
newlines) and of the pipe delimiter. -/
def tokenOK (b : Bytes) : Prop :=
  b ≠ [] ∧ ∀ c ∈ b, isSpaceChar c = false ∧ c ≠ '|'

instance (b : Bytes) : Decidable (tokenOK b) :=
  decidable_of_iff (b ≠ [] ∧ ∀ c ∈ b, isSpaceChar c = false ∧ c ≠ '|') Iff.rfl

/-! ## Splitting and tokenization lemmas -/

theorem splitOnPred_ne_nil (p : Char → Bool) (s : List Char) : splitOnPred p s ≠ [] := by
  induction s with
  | nil => simp [splitOnPred]
  | cons x xs ih =>
    simp only [splitOnPred]
    cases hpx : p x with
    | true => simp
    | false =>
      simp only [Bool.false_eq_true, if_false]
      cases hs : splitOnPred p xs with
      | nil => simp
      | cons f r => simp

theorem splitOnPred_eq_single (p : Char → Bool) (a : List Char)
    (ha : ∀ x ∈ a, p x = false) : splitOnPred p a = [a] := by
  induction a with
  | nil => rfl
  | cons x xs ih =>
    have hx : p x = false := ha x (by simp)
    have ihs : splitOnPred p xs = [xs] := ih (fun y hy => ha y (by simp [hy]))
    simp [splitOnPred, hx, ihs]

theorem splitOnPred_append_sep (p : Char → Bool) (a rest : List Char) (c : Char)
    (ha : ∀ x ∈ a, p x = false) (hc : p c = true) :
    splitOnPred p (a ++ c :: rest) = a :: splitOnPred p rest := by
  induction a with
  | nil => simp [splitOnPred, hc]
  | cons x xs ih =>
    have hx : p x = false := ha x (by simp)
    have ihs := ih (fun y hy => ha y (by simp [hy]))
    simp only [List.cons_append, splitOnPred, hx, Bool.false_eq_true, if_false]
    rw [show xs.append (c :: rest) = xs ++ c :: rest from rfl, ihs]

theorem splitOnChar_eq_single (c : Char) (a : List Char) (ha : c ∉ a) :
    splitOnChar c a = [a] := by
  refine splitOnPred_eq_single _ a (fun x hx => ?_)
  simp only [decide_eq_false_iff_not]
  exact fun h => ha (h ▸ hx)

theorem splitOnChar_append_sep (c : Char) (a rest : List Char) (ha : c ∉ a) :
    splitOnChar c (a ++ c :: rest) = a :: splitOnChar c rest := by
  refine splitOnPred_append_sep _ a rest c (fun x hx => ?_) (by simp)
  simp only [decide_eq_false_iff_not]
  exact fun h => ha (h ▸ hx)

theorem goFields_single (a : Bytes) (h0 : a ≠ [])
    (h : ∀ c ∈ a, isSpaceChar c = false) : goFields a = [a] := by
  simp [goFields, splitOnPred_eq_single isSpaceChar a h, h0]

theorem goFields_cons (a rest : Bytes) (h0 : a ≠ [])
    (h : ∀ c ∈ a, isSpaceChar c = false) :
    goFields (a ++ ' ' :: rest) = a :: goFields rest := by
  simp [goFields, splitOnPred_append_sep isSpaceChar a rest ' ' h rfl, h0]

theorem tokenOK_nonspace {b : Bytes} (h : tokenOK b) : ∀ c ∈ b, isSpaceChar c = false :=
  fun c hc => (h.2 c hc).1

theorem tokenOK_nopipe {b : Bytes} (h : tokenOK b) : '|' ∉ b :=
  fun hc => (h.2 '|' hc).2 rfl

theorem tokenOK_nonewline {b : Bytes} (h : tokenOK b) : '\n' ∉ b := by
  intro hc
  have := (h.2 '\n' hc).1
  simp [isSpaceChar] at this

/-! ## Memtable lemmas -/

theorem memLookup_insert_self (k : Bytes) (x : MemVal) (m : List (Bytes × MemVal)) :
    memLookup k (memInsert k x m) = some x := by
  induction m with
  | nil => simp [memInsert, memLookup]
  | cons h t ih =>
    obtain ⟨k', x'⟩ := h
    by_cases hk : k' = k
    · simp [memInsert, memLookup, hk]
    · simp [memInsert, memLookup, hk, ih]

theorem memLookup_insert_other (k k' : Bytes) (x : MemVal) (m : List (Bytes × MemVal))
    (h : k' ≠ k) : memLookup k' (memInsert k x m) = memLookup k' m := by
  have hne : k ≠ k' := fun hh => h hh.symm
  induction m with
  | nil => simp [memInsert, memLookup, hne]
  | cons hd t ih =>
    obtain ⟨k'', x''⟩ := hd
    by_cases hk : k'' = k
    · subst hk
      simp [memInsert, memLookup, hne]
    · by_cases hk2 : k'' = k'
      · simp [memInsert, memLookup, hk, hk2, h]
      · simp [memInsert, memLookup, hk, hk2, ih]

theorem lsm_get_put_self (t : LSMTree) (k v : Bytes) : (t.Put k v).Get k = some v := by
  simp [LSMTree.Put, LSMTree.Get, memLookup_insert_self]

theorem lsm_get_put_other (t : LSMTree) (k k' v : Bytes) (h : k' ≠ k) :
    (t.Put k v).Get k' = t.Get k' := by
  simp [LSMTree.Put, LSMTree.Get, memLookup_insert_other k k' _ _ h]

theorem lsm_get_del_self (t : LSMTree) (k : Bytes) : (t.Del k).Get k = none := by
  simp [LSMTree.Del, LSMTree.Get, memLookup_insert_self]

theorem lsm_get_del_other (t : LSMTree) (k k' : Bytes) (h : k' ≠ k) :
    (t.Del k).Get k' = t.Get k' := by
  simp [LSMTree.Del, LSMTree.Get, memLookup_insert_other k k' _ _ h]

/-! ## WAL record lemmas -/

theorem wal_Write_content (data : List Bytes) (w : WALState) :
    (wal_Write data w).file ++ (wal_Write data w).buf =
      w.file ++ w.buf ++ walRecord data := by
  simp only [wal_Write]
  by_cases h : data.length > w.cap - w.buf.length
  · simp [h, List.append_assoc]
  · simp [h, List.append_assoc]

theorem walRecord_put (k v : Bytes) :
    walRecord [str "+", k, v] = ('+' :: '|' :: (k ++ '|' :: (v ++ ['|']))) ++ ['\n'] := by
  simp [walRecord, str]

theorem walRecord_del (k : Bytes) :
    walRecord [str "-", k] = ('-' :: '|' :: (k ++ ['|'])) ++ ['\n'] := by
  simp [walRecord, str]

theorem splitOnChar_put_body (k v : Bytes) (hk : '|' ∉ k) (hv : '|' ∉ v) :
    splitOnChar '|' ('+' :: '|' :: (k ++ '|' :: (v ++ ['|']))) = [str "+", k, v, []] := by
  have h1 : ('+' :: '|' :: (k ++ '|' :: (v ++ ['|']))) =
      ['+'] ++ '|' :: (k ++ '|' :: (v ++ '|' :: [])) := rfl
  rw [h1, splitOnChar_append_sep _ _ _ (by simp),
    splitOnChar_append_sep _ _ _ hk, splitOnChar_append_sep _ _ _ hv]
  rfl

theorem splitOnChar_del_body (k : Bytes) (hk : '|' ∉ k) :
    splitOnChar '|' ('-' :: '|' :: (k ++ ['|'])) = [str "-", k, []] := by
  have h1 : ('-' :: '|' :: (k ++ ['|'])) = ['-'] ++ '|' :: (k ++ '|' :: []) := rfl
  rw [h1, splitOnChar_append_sep _ _ _ (by simp), splitOnChar_append_sep _ _ _ hk]
  rfl

theorem parseLine_nil : parseLine [] = none := rfl

theorem put_body_no_newline (k v : Bytes) (hkn : '\n' ∉ k) (hvn : '\n' ∉ v) :
    '\n' ∉ ('+' :: '|' :: (k ++ '|' :: (v ++ ['|']))) := by
  intro hmem
  simp only [List.mem_cons, List.mem_append, List.not_mem_nil, or_false] at hmem
  rcases hmem with h | h | h | h | h | h
  · exact absurd h (by decide)
  · exact absurd h (by decide)
  · exact hkn h
  · exact absurd h (by decide)
  · exact hvn h
  · exact absurd h (by decide)

theorem del_body_no_newline (k : Bytes) (hkn : '\n' ∉ k) :
    '\n' ∉ ('-' :: '|' :: (k ++ ['|'])) := by
  intro hmem
  simp only [List.mem_cons, List.mem_append, List.not_mem_nil, or_false] at hmem
  rcases hmem with h | h | h | h
  · exact absurd h (by decide)
  · exact absurd h (by decide)
  · exact hkn h
  · exact absurd h (by decide)

theorem parseLine_put_body (k v : Bytes) (hk : '|' ∉ k) (hv : '|' ∉ v) :
    parseLine ('+' :: '|' :: (k ++ '|' :: (v ++ ['|']))) = some ⟨k, v, false⟩ := by
  simp [parseLine, splitOnChar_put_body k v hk hv, str]

theorem parseLine_del_body (k : Bytes) (hk : '|' ∉ k) :
    parseLine ('-' :: '|' :: (k ++ ['|'])) = some ⟨k, [], true⟩ := by
  simp [parseLine, splitOnChar_del_body k hk, str]

theorem readEntriesContent_nil : readEntriesContent [] = [] := rfl

theorem readEntriesContent_cons (body rest : Bytes) (hb : '\n' ∉ body) :
    readEntriesContent (body ++ '\n' :: rest) =
      (parseLine body).toList ++ readEntriesContent rest := by
  simp only [readEntriesContent, splitOnChar_append_sep '\n' body rest hb,
    List.filterMap_cons]
  cases parseLine body <;> simp

/-! ## Claim theorems -/

/-- Claim C5: For every Put, `WAL.Write` emits exactly one newline-terminated
line `+|<key>|<value>|` — a delimiter after every argument — so splitting
the line body on the pipe character yields 4 fields with an empty trailing
field; for every Delete it emits `-|<key>|`, yielding 3 fields. -/
theorem c5_wal_record_format (k v : Bytes)
    (hkp : '|' ∉ k) (hvp : '|' ∉ v) (hkn : '\n' ∉ k) (hvn : '\n' ∉ v) :
    (∃ body, walRecord [str "+", k, v] = body ++ ['\n'] ∧ '\n' ∉ body ∧
      splitOnChar '|' body = [str "+", k, v, []]) ∧
    (∃ body, walRecord [str "-", k] = body ++ ['\n'] ∧ '\n' ∉ body ∧
      splitOnChar '|' body = [str "-", k, []]) := by
  exact ⟨⟨'+' :: '|' :: (k ++ '|' :: (v ++ ['|'])), walRecord_put k v,
      put_body_no_newline k v hkn hvn, splitOnChar_put_body k v hkp hvp⟩,
    ⟨'-' :: '|' :: (k ++ ['|']), walRecord_del k,
      del_body_no_newline k hkn, splitOnChar_del_body k hkp⟩⟩

theorem parseLine_isSome_iff (line : Bytes) :
    (parseLine line).isSome ↔
      (∃ k v w, splitOnChar '|' line = [str "+", k, v, w]) ∨
      (∃ k w, splitOnChar '|' line = [str "-", k, w]) := by
  by_cases hnil : line = []
  · subst hnil
    have hsp : splitOnChar '|' ([] : Bytes) = [[]] := rfl
    simp [parseLine, hsp]
  · rcases hs : splitOnChar '|' line with _ | ⟨a0, rest⟩
    · exact absurd hs (splitOnPred_ne_nil _ _)
    · by_cases hp : a0 = str "+"
      · subst hp
        rcases rest with _ | ⟨b1, _ | ⟨b2, _ | ⟨b3, _ | ⟨b4, rest'⟩⟩⟩⟩ <;>
          simp [parseLine, hnil, hs, str]
      · by_cases hm : a0 = str "-"
        · subst hm
          rcases rest with _ | ⟨b1, _ | ⟨b2, _ | ⟨b3, rest'⟩⟩⟩ <;>
            simp [parseLine, hnil, hs, hp, str]
        · simp [parseLine, hnil, hs, hp, hm]

theorem applyLine_parseLine (t : LSMTree) (line : Bytes) :
    applyLine t line =
      (match parseLine line with
        | some en => if en.delete then t.Del en.key else t.Put en.key en.value
        | none => t) := by
  by_cases hnil : line = []
  · subst hnil; rfl
  · rcases hs : splitOnChar '|' line with _ | ⟨a0, rest⟩
    · exact absurd hs (splitOnPred_ne_nil _ _)
    · by_cases hp : a0 = str "+"
      · subst hp
        rcases rest with _ | ⟨b1, _ | ⟨b2, _ | ⟨b3, _ | ⟨b4, rest'⟩⟩⟩⟩ <;>
          simp [applyLine, parseLine, hnil, hs]
      · by_cases hm : a0 = str "-"
        · subst hm
          rcases rest with _ | ⟨b1, _ | ⟨b2, _ | ⟨b3, rest'⟩⟩⟩ <;>
            simp [applyLine, parseLine, hnil, hs, hp]
        · simp [applyLine, parseLine, hnil, hs, hp, hm]

/-- Claim C6: WAL replay (`InitDB`) and entry reading (`ReadEntries`) accept
exactly the Put records with 4 pipe-split fields and the Delete records
with 3; the empty line and every malformed or unknown-op line are silently
skipped (both readers share the per-line parse, and `InitDB` applies
exactly what the parse accepts); replay returns an error only on an I/O
error when opening or reading the file, never on a parse error. -/
theorem c6_replay_accepts_exactly (line data : Bytes) (e : IOErr) (t : LSMTree) :
    parseLine [] = none ∧
    ((parseLine line).isSome ↔
      (∃ k v w, splitOnChar '|' line = [str "+", k, v, w]) ∨
      (∃ k w, splitOnChar '|' line = [str "-", k, w])) ∧
    (applyLine t line =
      (match parseLine line with
        | some en => if en.delete then t.Del en.key else t.Put en.key en.value
        | none => t)) ∧
    wal_InitDB (.error e) t = .error e ∧
    (∃ t', wal_InitDB (.ok data) t = .ok t') :=
  ⟨rfl, parseLine_isSome_iff line, applyLine_parseLine t line, rfl, ⟨_, rfl⟩⟩

/-- Witness for C5 at `k = "foo"`, `v = "bar"`. -/
theorem c5_wal_record_format_witness :
    (∃ body, walRecord [str "+", str "foo", str "bar"] = body ++ ['\n'] ∧ '\n' ∉ body ∧
      splitOnChar '|' body = [str "+", str "foo", str "bar", []]) ∧
    (∃ body, walRecord [str "-", str "foo"] = body ++ ['\n'] ∧ '\n' ∉ body ∧
      splitOnChar '|' body = [str "-", str "foo", []]) :=
  c5_wal_record_format (str "foo") (str "bar") (by decide) (by decide)
    (by decide) (by decide)


theorem record_parses (op : GoOp) (hop : okOp op) :
    ∃ body, walRecord (opArgs op) = body ++ ['\n'] ∧ '\n' ∉ body ∧
      parseLine body = some (opEntry op) := by
  cases op with
  | put k v =>
    obtain ⟨⟨_, hkp, hkn⟩, ⟨_, hvp, hvn⟩⟩ := hop
    exact ⟨'+' :: '|' :: (k ++ '|' :: (v ++ ['|'])), walRecord_put k v,
      put_body_no_newline k v hkn hvn, parseLine_put_body k v hkp hvp⟩
  | del k =>
    obtain ⟨_, hkp, hkn⟩ := hop
    exact ⟨'-' :: '|' :: (k ++ ['|']), walRecord_del k,
      del_body_no_newline k hkn, parseLine_del_body k hkp⟩

theorem writeOps_content (ops : List GoOp) (w : WALState) :
    (writeOps ops w).file ++ (writeOps ops w).buf =
      w.file ++ w.buf ++ (ops.map (fun op => walRecord (opArgs op))).flatten := by
  induction ops generalizing w with
  | nil => simp [writeOps]
  | cons op ops ih =>
    have h1 : writeOps (op :: ops) w = writeOps ops (wal_Write (opArgs op) w) := rfl
    rw [h1, ih, wal_Write_content]
    simp [List.append_assoc]

theorem readEntries_records (ops : List GoOp) (hops : ∀ op ∈ ops, okOp op) :
    readEntriesContent ((ops.map (fun op => walRecord (opArgs op))).flatten) =
      ops.map opEntry := by
  induction ops with
  | nil => simp [readEntriesContent_nil]
  | cons op ops ih =>
    obtain ⟨body, hb, hbn, hparse⟩ := record_parses op (hops op (by simp))
    have hflat : ((op :: ops).map (fun o => walRecord (opArgs o))).flatten =
        body ++ '\n' :: (ops.map (fun o => walRecord (opArgs o))).flatten := by
      simp only [List.map_cons, List.flatten_cons, hb, List.append_assoc,
        List.cons_append, List.nil_append]
    rw [hflat, readEntriesContent_cons body _ hbn, hparse,
      ih (fun o ho => hops o (List.mem_cons_of_mem _ ho))]
    simp

/-- Claim C7: Round-trip: writing any sequence of Put/Delete mutations whose
keys and values are non-empty and free of pipes and newlines with
`WAL.Write` into a fresh WAL, then persisting and parsing the file with
`WAL.ReadEntries`, yields exactly the corresponding entries — same
operations, keys, values, and order. -/
theorem c7_wal_roundtrip (ops : List GoOp) (w : WALState)
    (hfile : w.file = []) (hbuf : w.buf = [])
    (hops : ∀ op ∈ ops, okOp op) :
    readEntriesContent (wal_Persist (writeOps ops w)).file = ops.map opEntry := by
  have hc := writeOps_content ops w
  rw [hfile, hbuf] at hc
  have hpf : (wal_Persist (writeOps ops w)).file =
      (writeOps ops w).file ++ (writeOps ops w).buf := rfl
  rw [hpf, hc]
  simp only [List.nil_append]
  exact readEntries_records ops hops

/-- Witness for C7: the sequence `Put a 1; Del b; Put a 2` round-trips
through a fresh WAL of capacity 4096. -/
theorem c7_wal_roundtrip_witness :
    readEntriesContent
      (wal_Persist (writeOps [.put (str "a") (str "1"), .del (str "b"),
        .put (str "a") (str "2")] ⟨[], [], 4096⟩)).file =
      [⟨str "a", str "1", false⟩, ⟨str "b", [], true⟩, ⟨str "a", str "2", false⟩] := by
  have h := c7_wal_roundtrip
    [.put (str "a") (str "1"), .del (str "b"), .put (str "a") (str "2")]
    ⟨[], [], 4096⟩ rfl rfl (by decide)
  simpa [opEntry] using h

/-! ## Command-line tokenization -/

theorem goFields_put_line (k v : Bytes) (hk : tokenOK k) (hv : tokenOK v) :
    goFields (str "PUT " ++ (k ++ ' ' :: v)) = [str "PUT", k, v] := by
  have h1 : str "PUT " ++ (k ++ ' ' :: v) = str "PUT" ++ ' ' :: (k ++ ' ' :: v) := rfl
  rw [h1, goFields_cons (str "PUT") (k ++ ' ' :: v) (by decide) (by decide),
    goFields_cons k v hk.1 (tokenOK_nonspace hk),
    goFields_single v hv.1 (tokenOK_nonspace hv)]

theorem goFields_get_line (k : Bytes) (hk : tokenOK k) :
    goFields (str "GET " ++ k) = [str "GET", k] := by
  have h1 : str "GET " ++ k = str "GET" ++ ' ' :: k := rfl
  rw [h1, goFields_cons (str "GET") k (by decide) (by decide),
    goFields_single k hk.1 (tokenOK_nonspace hk)]

theorem goFields_del_line (k : Bytes) (hk : tokenOK k) :
    goFields (str "DEL " ++ k) = [str "DEL", k] := by
  have h1 : str "DEL " ++ k = str "DEL" ++ ' ' :: k := rfl
  rw [h1, goFields_cons (str "DEL") k (by decide) (by decide),
    goFields_single k hk.1 (tokenOK_nonspace hk)]

theorem dropWhile_newline_eq (k : Bytes) (h : '\n' ∉ k) :
    k.dropWhile (fun c => c = '\n') = k := by
  cases k with
  | nil => rfl
  | cons c t =>
    have hc : ¬(c = '\n') := fun hh => h (by simp [hh])
    simp [List.dropWhile_cons, hc]

theorem trimNewline_eq (k : Bytes) (h : '\n' ∉ k) : trimNewline k = k := by
  unfold trimNewline
  rw [dropWhile_newline_eq k h, dropWhile_newline_eq _ (by simpa using h),
    List.reverse_reverse]

/-- Claim C1: On one connection with no WAL I/O errors, for any key and
value (non-empty, free of whitespace, pipes and newlines), `PUT k v`
appends the record to the WAL, applies the put to the LSM tree and
replies `OK`, and the following `GET k` replies with `v`, the value most
recently put for `k`. -/
theorem c1_put_then_get (k v : Bytes) (s : EngineState)
    (hk : tokenOK k) (hv : tokenOK v) :
    ∃ s₁, tcpStep noFaults (str "PUT " ++ (k ++ ' ' :: v)) s = .resp (str "OK") s₁ ∧
      s₁.lsm = s.lsm.Put k v ∧
      s₁.wal.file ++ s₁.wal.buf = s.wal.file ++ s.wal.buf ++ walRecord [str "+", k, v] ∧
      tcpRun noFaults [str "PUT " ++ (k ++ ' ' :: v), str "GET " ++ k] s =
        [str "OK", v] := by
  refine ⟨⟨s.lsm.Put k v, wal_Write [str "+", k, v] s.wal⟩, ?_, rfl,
    wal_Write_content _ _, ?_⟩
  · simp [tcpStep, goFields_put_line k v hk hv, noFaults]
  · have h1 : tcpStep noFaults (str "PUT " ++ (k ++ ' ' :: v)) s =
        .resp (str "OK") ⟨s.lsm.Put k v, wal_Write [str "+", k, v] s.wal⟩ := by
      simp [tcpStep, goFields_put_line k v hk hv, noFaults]
    have h2 : tcpStep noFaults (str "GET " ++ k)
        (⟨s.lsm.Put k v, wal_Write [str "+", k, v] s.wal⟩ : EngineState) =
        .resp v ⟨s.lsm.Put k v, wal_Persist (wal_Write [str "+", k, v] s.wal)⟩ := by
      have hne : str "GET" ≠ str "PUT" := by decide
      simp [tcpStep, goFields_get_line k hk, noFaults, lsm_get_put_self, hne]
    simp [tcpRun, h1, h2]

/-- Witness for C1: `PUT foo bar` then `GET foo` answers `OK` then `bar`
from the empty engine state. -/
theorem c1_put_then_get_witness :
    tcpRun noFaults [str "PUT " ++ (str "foo" ++ ' ' :: str "bar"),
      str "GET " ++ str "foo"] ⟨⟨[], []⟩, ⟨[], [], 4096⟩⟩ =
      [str "OK", str "bar"] := by
  obtain ⟨s₁, -, -, -, hrun⟩ :=
    c1_put_then_get (str "foo") (str "bar") ⟨⟨[], []⟩, ⟨[], [], 4096⟩⟩
      (by decide) (by decide)
  exact hrun

/-- Claim C2: For PUT and DEL on both the TCP and UDP handlers: when the WAL
append fails, the error text is reported to the client and the engine
state — in particular the LSM tree — is left unchanged; when the append
succeeds, the mutation is applied to the tree and the reply is `OK`. -/
theorem c2_wal_error_no_mutation (k v e : Bytes) (s : EngineState)
    (hk : tokenOK k) (hv : tokenOK v) :
    (tcpStep ⟨some e, none⟩ (str "PUT " ++ (k ++ ' ' :: v)) s =
      .resp (str "Error writing to WAL: " ++ e) s) ∧
    (tcpStep ⟨some e, none⟩ (str "DEL " ++ k) s =
      .resp (str "Error writing to WAL: " ++ e) s) ∧
    (udpStep ⟨some e, none⟩ (str "PUT " ++ (k ++ ' ' :: v)) s =
      (str "Error writing to WAL: " ++ e, s)) ∧
    (udpStep ⟨some e, none⟩ (str "DEL " ++ k) s =
      (str "Error writing to WAL: " ++ e, s)) ∧
    (tcpStep ⟨none, none⟩ (str "PUT " ++ (k ++ ' ' :: v)) s =
      .resp (str "OK") ⟨s.lsm.Put k v, wal_Write [str "+", k, v] s.wal⟩) ∧
    (tcpStep ⟨none, none⟩ (str "DEL " ++ k) s =
      .resp (str "OK") ⟨s.lsm.Del k, wal_Write [str "-", k] s.wal⟩) ∧
    (udpStep ⟨none, none⟩ (str "PUT " ++ (k ++ ' ' :: v)) s =
      (str "OK", ⟨s.lsm.Put k v, wal_Write [str "+", k, v] s.wal⟩)) ∧
    (udpStep ⟨none, none⟩ (str "DEL " ++ k) s =
      (str "OK", ⟨s.lsm.Del k, wal_Write [str "-", k] s.wal⟩)) := by
  have hdp : str "DEL" ≠ str "PUT" := by decide
  have hdg : str "DEL" ≠ str "GET" := by decide
  have hpg : str "PUT" ≠ str "GET" := by decide
  refine ⟨?_, ?_, ?_, ?_, ?_, ?_, ?_, ?_⟩ <;>
    simp [tcpStep, udpStep, goFields_put_line k v hk hv, goFields_del_line k hk,
      hdp, hdg, hpg]

/-- Witness for C2 at `k = "k"`, `v = "v"`, error text `"boom"`, the empty
engine state. -/
theorem c2_wal_error_no_mutation_witness :
    (tcpStep ⟨some (str "boom"), none⟩ (str "PUT " ++ (str "k" ++ ' ' :: str "v"))
        ⟨⟨[], []⟩, ⟨[], [], 4096⟩⟩ =
      .resp (str "Error writing to WAL: " ++ str "boom") ⟨⟨[], []⟩, ⟨[], [], 4096⟩⟩) ∧
    (udpStep ⟨none, none⟩ (str "DEL " ++ str "k") ⟨⟨[], []⟩, ⟨[], [], 4096⟩⟩ =
      (str "OK", ⟨LSMTree.Del ⟨[], []⟩ (str "k"),
        wal_Write [str "-", str "k"] ⟨[], [], 4096⟩⟩)) := by
  obtain ⟨h1, -, -, -, -, -, -, h8⟩ :=
    c2_wal_error_no_mutation (str "k") (str "v") (str "boom")
      ⟨⟨[], []⟩, ⟨[], [], 4096⟩⟩ (by decide) (by decide)
  exact ⟨h1, h8⟩

/-- Claim C3: Every GET, on TCP and on UDP, performs the WAL
flush-and-sync (`wal.Persist`) before the lookup: on success the reply is
computed from the state whose WAL has been persisted, and on a persist
failure the handler reports the persistence error and performs no
lookup. -/
theorem c3_get_forces_persist (k e : Bytes) (s : EngineState) (hk : tokenOK k) :
    (tcpStep ⟨none, some e⟩ (str "GET " ++ k) s =
      .resp (str "Error persisting WAL: " ++ e) s) ∧
    (udpStep ⟨none, some e⟩ (str "GET " ++ k) s = (str "Error persisting WAL", s)) ∧
    (tcpStep ⟨none, none⟩ (str "GET " ++ k) s =
      .resp (match s.lsm.Get k with
        | some v => v
        | none => str "Data not found") ⟨s.lsm, wal_Persist s.wal⟩) ∧
    (udpStep ⟨none, none⟩ (str "GET " ++ k) s =
      ((match s.lsm.Get k with
        | some v => v
        | none => str "Data not found"), ⟨s.lsm, wal_Persist s.wal⟩)) := by
  have hgp : str "GET" ≠ str "PUT" := by decide
  have htrim : trimNewline k = k := trimNewline_eq k (tokenOK_nonewline hk)
  refine ⟨?_, ?_, ?_, ?_⟩ <;>
    · simp only [tcpStep, udpStep, goFields_get_line k hk, hgp, if_neg hgp]
      cases hg : s.lsm.Get k <;>
        simp [hg, htrim]

/-- Witness for C3 at `k = "a"`, error text `"iofail"`, a state holding
`a ↦ 1` with a non-empty WAL buffer. -/
theorem c3_get_forces_persist_witness :
    (tcpStep ⟨none, some (str "iofail")⟩ (str "GET " ++ str "a")
        ⟨⟨[(str "a", .val (str "1"))], []⟩, ⟨[], str "+|a|1|\n", 4096⟩⟩ =
      .resp (str "Error persisting WAL: " ++ str "iofail")
        ⟨⟨[(str "a", .val (str "1"))], []⟩, ⟨[], str "+|a|1|\n", 4096⟩⟩) ∧
    (tcpStep ⟨none, none⟩ (str "GET " ++ str "a")
        ⟨⟨[(str "a", .val (str "1"))], []⟩, ⟨[], str "+|a|1|\n", 4096⟩⟩ =
      .resp (str "1")
        ⟨⟨[(str "a", .val (str "1"))], []⟩,
          wal_Persist ⟨[], str "+|a|1|\n", 4096⟩⟩) := by
  obtain ⟨h1, -, h3, -⟩ :=
    c3_get_forces_persist (str "a") (str "iofail")
      ⟨⟨[(str "a", .val (str "1"))], []⟩, ⟨[], str "+|a|1|\n", 4096⟩⟩ (by decide)
  refine ⟨h1, ?_⟩
  rw [h3]
  rfl

/-- Claim C9: Over TCP, a zero-token line, an unknown first token, a `PUT`
whose token count is not 3, or a `DEL` whose token count is not 2 is
answered with `Invalid command`, leaves the engine state unchanged, and
the scan loop continues: the rest of the session is processed exactly as
it would be from the same state. -/
theorem c9_invalid_command (line : Bytes) (rest : List Bytes) (fl : Faults)
    (s : EngineState)
    (h : goFields line = [] ∨
      (∃ c0 args, goFields line = c0 :: args ∧
        c0 ≠ str "PUT" ∧ c0 ≠ str "GET" ∧ c0 ≠ str "DEL") ∨
      (∃ args, goFields line = str "PUT" :: args ∧ args.length ≠ 2) ∨
      (∃ args, goFields line = str "DEL" :: args ∧ args.length ≠ 1)) :
    tcpStep fl line s = .resp (str "Invalid command") s ∧
    tcpRun fl (line :: rest) s = str "Invalid command" :: tcpRun fl rest s := by
  have hstep : tcpStep fl line s = .resp (str "Invalid command") s := by
    rcases h with hf | ⟨c0, args, hf, h1, h2, h3⟩ | ⟨args, hf, hlen⟩ | ⟨args, hf, hlen⟩
    · simp [tcpStep, hf]
    · simp [tcpStep, hf, h1, h2, h3]
    · rcases args with _ | ⟨a, _ | ⟨b, _ | ⟨c, t⟩⟩⟩
      · simp [tcpStep, hf]
      · simp [tcpStep, hf]
      · exact absurd rfl hlen
      · simp [tcpStep, hf]
    · have hdp : str "DEL" ≠ str "PUT" := by decide
      have hdg : str "DEL" ≠ str "GET" := by decide
      rcases args with _ | ⟨a, _ | ⟨b, t⟩⟩
      · simp [tcpStep, hf, hdp, hdg]
      · exact absurd rfl hlen
      · simp [tcpStep, hf, hdp, hdg]
  exact ⟨hstep, by simp [tcpRun, hstep]⟩

/-- Witness for C9: `PUT onlyonearg` answers `Invalid command` and leaves
the connection processing the next command (`GET a`, still answered). -/
theorem c9_invalid_command_witness :
    tcpRun noFaults [str "PUT onlyonearg", str "GET " ++ str "a"]
        ⟨⟨[(str "a", .val (str "1"))], []⟩, ⟨[], [], 4096⟩⟩ =
      str "Invalid command" ::
        tcpRun noFaults [str "GET " ++ str "a"]
          ⟨⟨[(str "a", .val (str "1"))], []⟩, ⟨[], [], 4096⟩⟩ := by
  obtain ⟨-, hrun⟩ :=
    c9_invalid_command (str "PUT onlyonearg") [str "GET " ++ str "a"] noFaults
      ⟨⟨[(str "a", .val (str "1"))], []⟩, ⟨[], [], 4096⟩⟩
      (Or.inr (Or.inr (Or.inl ⟨[str "onlyonearg"], by decide, by decide⟩)))
  exact hrun

/-- Claim C10: The TCP handler does not check GET arity: on the one-token
input `GET` it indexes `cmd[1]` out of range — a runtime panic — instead
of answering `Invalid command`, while the UDP handler checks the token
count and answers `Invalid command`; the two transports diverge on this
input. -/
theorem c10_get_arity_divergence (s : EngineState) (fl : Faults) :
    tcpStep noFaults (str "GET") s = .panicked ∧
    udpStep fl (str "GET") s = (str "Invalid command", s) := by
  have hf : goFields (str "GET") = [str "GET"] :=
    goFields_single (str "GET") (by decide) (by decide)
  have hgp : str "GET" ≠ str "PUT" := by decide
  constructor
  · simp [tcpStep, hf, hgp, noFaults]
  · cases hpe : fl.persistErr <;> simp [udpStep, hf, hpe]

/-- Claim C8, code evaluated at the failing input: `WAL.Write` compares the
number of arguments — here 3 — against the available buffer space, not
the record's byte size.  With 16 bytes of capacity, 10 bytes already
buffered (6 available) and an 18-byte record, the claimed pre-write flush
does not happen: nothing moves to the file and the buffer is left holding
28 bytes, past its capacity. -/
theorem c8_write_does_not_flush_on_full_buffer :
    (walRecord [str "+", str "k", str "longvalue123"]).length = 18 ∧
    (⟨[], str "0123456789", 16⟩ : WALState).cap -
      (⟨[], str "0123456789", 16⟩ : WALState).buf.length = 6 ∧
    ([str "+", str "k", str "longvalue123"] : List Bytes).length = 3 ∧
    (wal_Write [str "+", str "k", str "longvalue123"]
      ⟨[], str "0123456789", 16⟩).file = [] ∧
    (wal_Write [str "+", str "k", str "longvalue123"]
      ⟨[], str "0123456789", 16⟩).buf.length = 28 := by decide

/-! ## Startup replay lemmas -/

theorem applyEntry_disk (t : LSMTree) (en : Entry) : (applyEntry t en).disk = t.disk := by
  by_cases h : en.delete <;> simp [applyEntry, h, LSMTree.Del, LSMTree.Put]

theorem foldl_applyEntry_disk (es : List Entry) (t : LSMTree) :
    (es.foldl applyEntry t).disk = t.disk := by
  induction es generalizing t with
  | nil => rfl
  | cons en es ih => rw [List.foldl_cons, ih, applyEntry_disk]

theorem foldl_applyLine_eq (lines : List Bytes) (t : LSMTree) :
    lines.foldl applyLine t = (lines.filterMap parseLine).foldl applyEntry t := by
  induction lines generalizing t with
  | nil => rfl
  | cons l ls ih =>
    rw [List.foldl_cons, applyLine_parseLine, List.filterMap_cons]
    cases hp : parseLine l with
    | none => simp [ih]
    | some en => simp [List.foldl_cons, ih, applyEntry]

theorem memLookup_applyEntries (es : List Entry) (t : LSMTree) (k : Bytes) :
    memLookup k (es.foldl applyEntry t).mem =
      (match lastEntryFor k es with
        | some en => some (if en.delete then MemVal.tomb else MemVal.val en.value)
        | none => memLookup k t.mem) := by
  induction es generalizing t with
  | nil => rfl
  | cons en es ih =>
    rw [List.foldl_cons, ih]
    cases hlast : lastEntryFor k es with
    | some e' => simp [lastEntryFor, hlast]
    | none =>
      by_cases hk : en.key = k
      · subst hk
        by_cases hd : en.delete <;>
          simp [lastEntryFor, hlast, applyEntry, hd, LSMTree.Del, LSMTree.Put,
            memLookup_insert_self]
      · simp [lastEntryFor, hlast, hk]
        by_cases hd : en.delete <;>
          simp [applyEntry, hd, LSMTree.Del, LSMTree.Put,
            memLookup_insert_other en.key k _ _ (fun hh => hk hh.symm)]

theorem loadDisk_mem (disk : List (Bytes × Bytes)) (t : LSMTree) (k : Bytes) :
    memLookup k (disk.foldl (fun t kv => t.Put kv.1 kv.2) t).mem =
      (match lastValueFor k disk with
        | some v => some (MemVal.val v)
        | none => memLookup k t.mem) := by
  induction disk generalizing t with
  | nil => rfl
  | cons kv rest ih =>
    obtain ⟨k1, v1⟩ := kv
    rw [List.foldl_cons, ih]
    cases hlast : lastValueFor k rest with
    | some v => simp [lastValueFor, hlast]
    | none =>
      by_cases hk : k1 = k
      · subst hk
        simp [lastValueFor, hlast, LSMTree.Put, memLookup_insert_self]
      · simp [lastValueFor, hlast, hk, LSMTree.Put,
          memLookup_insert_other k1 k _ _ (fun hh => hk hh.symm)]

theorem loadDisk_disk (disk : List (Bytes × Bytes)) (t : LSMTree) :
    (disk.foldl (fun t kv => t.Put kv.1 kv.2) t).disk = t.disk := by
  induction disk generalizing t with
  | nil => rfl
  | cons kv rest ih =>
    rw [List.foldl_cons, ih]
    simp [LSMTree.Put]

theorem engineStartup_memLookup (disk : List (Bytes × Bytes)) (walData k : Bytes) :
    memLookup k (engineStartup disk walData).mem =
      (match lastEntryFor k (readEntriesContent walData) with
        | some en => some (if en.delete then MemVal.tomb else MemVal.val en.value)
        | none =>
          (match lastValueFor k disk with
            | some v => some (MemVal.val v)
            | none => none)) := by
  unfold engineStartup
  rw [foldl_applyLine_eq, memLookup_applyEntries,
    show List.filterMap parseLine (splitOnChar '\n' walData) =
      readEntriesContent walData from rfl]
  cases lastEntryFor k (readEntriesContent walData) with
  | some en => rfl
  | none =>
    rw [loadDisk_mem]
    cases lastValueFor k disk with
    | some v => rfl
    | none => rfl

/-- Claim C4 counterexample: the claim that the listening surface is
opened to clients only after the load-and-replay step completes fails on
`Server.Start`: `net.Listen` — the opening of the TCP listening socket —
precedes the load-from-disk step in the startup sequence. -/
theorem c4_listen_opened_before_load :
    ¬ (startIndex .loadFromDisk < startIndex .listenTCP) := by decide

/-- Claim C4 amended: the listening sockets are opened before the load,
but no client command is processed before the Disk Store contents have
been loaded and the WAL replayed on top: both accept loops start only
after the load-and-replay step, and after restart the first GET observes
the persisted state — the latest WAL record for a key wins, and a key
untouched by the WAL serves its Disk Store value. -/
theorem c4_startup_order_and_recovery (disk : List (Bytes × Bytes))
    (walData k v : Bytes) :
    (startIndex .listenTCP < startIndex .loadFromDisk ∧
     startIndex .listenUDP < startIndex .loadFromDisk ∧
     startIndex .loadFromDisk < startIndex .acceptLoopTCP ∧
     startIndex .loadFromDisk < startIndex .acceptLoopUDP) ∧
    (lastEntryFor k (readEntriesContent walData) = some ⟨k, v, false⟩ →
      (engineStartup disk walData).Get k = some v) ∧
    (lastEntryFor k (readEntriesContent walData) = some ⟨k, [], true⟩ →
      (engineStartup disk walData).Get k = none) ∧
    (lastEntryFor k (readEntriesContent walData) = none →
      lastValueFor k disk = some v →
      (engineStartup disk walData).Get k = some v) := by
  refine ⟨by refine ⟨?_, ?_, ?_, ?_⟩ <;> decide, ?_, ?_, ?_⟩
  · intro hlast
    simp [LSMTree.Get, engineStartup_memLookup, hlast]
  · intro hlast
    simp [LSMTree.Get, engineStartup_memLookup, hlast]
  · intro hlast hdisk
    simp [LSMTree.Get, engineStartup_memLookup, hlast, hdisk]

/-- Witness for C4 (amended): disk holds `a ↦ 0`, the WAL holds
`+|a|1|`; after startup `GET a` observes `1` (the WAL record wins), and a
disk-only key `b ↦ 2` is observable too. -/
theorem c4_startup_order_and_recovery_witness :
    (engineStartup [(str "a", str "0"), (str "b", str "2")]
      (str "+|a|1|\n")).Get (str "a") = some (str "1") ∧
    (engineStartup [(str "a", str "0"), (str "b", str "2")]
      (str "+|a|1|\n")).Get (str "b") = some (str "2") := by
  constructor
  · exact (c4_startup_order_and_recovery [(str "a", str "0"), (str "b", str "2")]
      (str "+|a|1|\n") (str "a") (str "1")).2.1 (by decide)
  · exact (c4_startup_order_and_recovery [(str "a", str "0"), (str "b", str "2")]
      (str "+|a|1|\n") (str "b") (str "2")).2.2.2 (by decide) (by decide)
